import Mathlib

/-!
Verification of the core logic of the sight-reading score generator
(src/src/App.tsx).  The JavaScript functions are shallowly embedded:
JavaScript numbers on the reachable inputs are integers or small exact
decimal fractions, modelled as `Nat` / `Int` / `Rat`; fallible parsing
returns `Option`.  `Math.random()` is modelled as an explicit stream of
rational draws in [0,1); the vexflow `KeyManager` (an external library
dependency, not part of this repository) is modelled as an opaque
function from a diatonic letter to the selected note and accidental, as
the design notes describe it.
-/

/-- Convert a list of decimal digit characters to the number they denote,
as JavaScript `Number` does on an all-digit string. -/
def digitsToNat (ds : List Char) : ℕ :=
  ds.foldl (fun a c => 10 * a + (c.toNat - 48)) 0

/-- JavaScript `Math.round`: round half toward positive infinity. -/
def jsRound (q : ℚ) : ℤ :=
  (q + 1/2).floor

/-- JavaScript `Number.prototype.toFixed(2)` followed by `Number(...)`,
on a non-negative exact decimal value: round to two decimal places, ties
away from zero (for non-negative input this is rounding half up).  The
program rounds the binary double of the quotient, which can differ from
this exact-rational rounding when the double falls on the other side of
a two-decimal tie (for example 196/800, stored just below 0.245);
theorems therefore evaluate this function only at inputs whose quotient
is exactly representable or safely away from a tie. -/
def toFixed2 (q : ℚ) : ℚ :=
  (jsRound (100 * q) : ℚ) / 100

/-- Result record of `parseTimeSignature` (src/src/App.tsx:125-135). -/
structure TimeSigInfo where
  numerator : ℕ
  denominator : ℕ
  quarterBeatsPerMeasure : ℚ
  eighthsPerMeasure : ℤ
  deriving Repr, DecidableEq

/-- The regex match `^(\d+)\s*\/\s*(\d+)$` of `parseTimeSignature`:
a digit run, optional whitespace, a slash, optional whitespace, a digit
run, end of string.  Returns the two digit runs converted to numbers.
`\s` is modelled with `Char.isWhitespace` (space, tab, CR, LF), a
subset of the regex class; theorems only use inputs without the extra
whitespace forms (form feed, vertical tab, NBSP). -/
def parseTimeSigParts (s : String) : Option (ℕ × ℕ) :=
  if ((s.toList.dropWhile Char.isDigit).dropWhile Char.isWhitespace).head? = some '/' then
    if s.toList.takeWhile Char.isDigit = [] ∨
        (((s.toList.dropWhile Char.isDigit).dropWhile Char.isWhitespace).tail.dropWhile
          Char.isWhitespace).takeWhile Char.isDigit = [] ∨
        (((s.toList.dropWhile Char.isDigit).dropWhile Char.isWhitespace).tail.dropWhile
          Char.isWhitespace).dropWhile Char.isDigit ≠ [] then none
    else
      some (digitsToNat (s.toList.takeWhile Char.isDigit),
        digitsToNat ((((s.toList.dropWhile Char.isDigit).dropWhile
          Char.isWhitespace).tail.dropWhile Char.isWhitespace).takeWhile Char.isDigit))
  else none

/-- `parseTimeSignature` (src/src/App.tsx:125-135): derive the
quarter-beat count `Number(((numerator * 4) / denominator).toFixed(2))`
and the eighth-unit count `Math.round(quarterBeatsPerMeasure * 2)`;
unparseable input falls back to the 4/4 record. -/
def parseTimeSignature (timeSig : String) : TimeSigInfo :=
  match parseTimeSigParts timeSig with
  | none => ⟨4, 4, 4, 8⟩
  | some (n, d) =>
    ⟨n, d, toFixed2 ((n * 4 : ℚ) / d), jsRound (toFixed2 ((n * 4 : ℚ) / d) * 2)⟩

/-- `timeSignatureOptions` (src/src/App.tsx:80). -/
def timeSignatureOptions : List String :=
  ["4/4", "3/4", "2/4", "6/8", "12/8", "5/4", "7/8"]

/-! Helper lemmas about `takeWhile` / `dropWhile` on appended lists,
used to evaluate the regular-expression matches symbolically. -/

theorem takeWhile_append_cons {α : Type} (p : α → Bool) (l1 l2 : List α) (c : α)
    (h1 : ∀ a ∈ l1, p a = true) (hc : p c = false) :
    (l1 ++ c :: l2).takeWhile p = l1 := by
  induction l1 with
  | nil => simp [List.takeWhile_cons, hc]
  | cons x xs ih =>
    have hx : p x = true := h1 x (by simp)
    rw [List.cons_append, List.takeWhile_cons, hx]
    simp only [ite_true]
    rw [ih (fun a ha => h1 a (by simp [ha]))]

theorem dropWhile_append_cons {α : Type} (p : α → Bool) (l1 l2 : List α) (c : α)
    (h1 : ∀ a ∈ l1, p a = true) (hc : p c = false) :
    (l1 ++ c :: l2).dropWhile p = c :: l2 := by
  induction l1 with
  | nil => simp [List.dropWhile_cons, hc]
  | cons x xs ih =>
    have hx : p x = true := h1 x (by simp)
    rw [List.cons_append, List.dropWhile_cons, hx]
    simp only [ite_true]
    exact ih (fun a ha => h1 a (by simp [ha]))

theorem takeWhile_of_all {α : Type} (p : α → Bool) (l : List α)
    (h : ∀ a ∈ l, p a = true) : l.takeWhile p = l := by
  induction l with
  | nil => rfl
  | cons x xs ih =>
    rw [List.takeWhile_cons, h x (by simp)]
    simp only [ite_true]
    rw [ih (fun a ha => h a (by simp [ha]))]

theorem dropWhile_of_all {α : Type} (p : α → Bool) (l : List α)
    (h : ∀ a ∈ l, p a = true) : l.dropWhile p = [] := by
  induction l with
  | nil => rfl
  | cons x xs ih =>
    rw [List.dropWhile_cons, h x (by simp)]
    simp only [ite_true]
    exact ih (fun a ha => h a (by simp [ha]))

theorem dropWhile_head_false {α : Type} (p : α → Bool) (l : List α)
    (h : ∀ a ∈ l.head?, p a = false) : l.dropWhile p = l := by
  cases l with
  | nil => rfl
  | cons x xs =>
    rw [List.dropWhile_cons, h x (by simp)]
    simp

theorem isWhitespace_cases (c : Char) (h : c.isWhitespace = true) :
    c = ' ' ∨ c = '\t' ∨ c = '\r' ∨ c = '\n' := by
  revert h
  simp only [Char.isWhitespace, Bool.or_eq_true, decide_eq_true_eq]
  tauto

theorem isDigit_not_whitespace (c : Char) (h : c.isDigit = true) :
    c.isWhitespace = false := by
  by_contra hw
  have hw' : c.isWhitespace = true := by simpa using hw
  rcases isWhitespace_cases c hw' with rfl | rfl | rfl | rfl <;>
    exact absurd h (by decide)

theorem isDigit_not_slash (c : Char) (h : c.isDigit = true) : c ≠ '/' := by
  rintro rfl
  revert h
  decide

/-- Evaluation of the time-signature regex on a well-formed
`"<digits>/<digits>"` input. -/
theorem parseTimeSigParts_eval (ds1 ds2 : List Char)
    (h1 : ds1 ≠ []) (h2 : ds2 ≠ [])
    (hd1 : ∀ c ∈ ds1, c.isDigit = true) (hd2 : ∀ c ∈ ds2, c.isDigit = true) :
    parseTimeSigParts ⟨ds1 ++ '/' :: ds2⟩ = some (digitsToNat ds1, digitsToNat ds2) := by
  have hslash : Char.isDigit '/' = false := by decide
  have hwsp : Char.isWhitespace '/' = false := by decide
  have htl : (String.mk (ds1 ++ '/' :: ds2)).toList = ds1 ++ '/' :: ds2 := rfl
  unfold parseTimeSigParts
  rw [htl]
  rw [takeWhile_append_cons Char.isDigit ds1 ds2 '/' hd1 hslash]
  rw [dropWhile_append_cons Char.isDigit ds1 ds2 '/' hd1 hslash]
  rw [dropWhile_head_false Char.isWhitespace ('/' :: ds2)
    (by intro a ha; simp at ha; subst ha; exact hwsp)]
  simp only [List.head?_cons, List.tail_cons, if_pos rfl]
  rw [dropWhile_head_false Char.isWhitespace ds2
    (by intro a ha; cases ds2 with
        | nil => simp at ha
        | cons x xs =>
          simp at ha; subst ha
          exact isDigit_not_whitespace x (hd2 x (by simp)))]
  rw [takeWhile_of_all Char.isDigit ds2 hd2, dropWhile_of_all Char.isDigit ds2 hd2]
  simp [h1, h2]

/-- Claim C3 (corrected): the spec expects 12 eighth-units for the input
"6/8", but `parseTimeSignature` computes 6 times 4 / 8 = 3 quarter beats
and hence 6 eighth-units. -/
theorem c3_counterexample :
    (parseTimeSignature "6/8").eighthsPerMeasure = 6 ∧ (6 : ℤ) ≠ 12 := by
  constructor
  · with_unfolding_all rfl
  · decide

/-- Claim C3 (amended): `parseTimeSignature` returns 6 eighth-units for
"6/8", 8 units for "4/4", 10 units for "5/4", and the 4/4 fallback of
8 units for the malformed input "abc". -/
theorem c3_time_signature_examples :
    parseTimeSignature "6/8" = ⟨6, 8, 3, 6⟩ ∧
    parseTimeSignature "4/4" = ⟨4, 4, 4, 8⟩ ∧
    parseTimeSignature "5/4" = ⟨5, 4, 5, 10⟩ ∧
    parseTimeSignature "abc" = ⟨4, 4, 4, 8⟩ := by
  refine ⟨?_, ?_, ?_, ?_⟩ <;> with_unfolding_all rfl

/-- Claim C4 (corrected): on the input "31/500" the code's two-stage
rounding (two decimal places first, then `Math.round` of the doubled
value) yields 1 eighth-unit, while the claimed single rounding of
numerator times 8 / denominator yields 0. -/
theorem c4_counterexample :
    (parseTimeSignature "31/500").eighthsPerMeasure = 1 ∧
    jsRound ((31 * 8 : ℚ) / 500) = 0 ∧ (1 : ℤ) ≠ 0 := by
  refine ⟨?_, ?_, ?_⟩
  · with_unfolding_all rfl
  · with_unfolding_all rfl
  · decide

theorem mem_of_mem_dropWhile {α : Type} (p : α → Bool) (l : List α) (a : α)
    (h : a ∈ l.dropWhile p) : a ∈ l := by
  induction l with
  | nil => simp at h
  | cons x xs ih =>
    rw [List.dropWhile_cons] at h
    by_cases hx : p x = true
    · rw [if_pos hx] at h
      exact List.mem_cons_of_mem x (ih h)
    · rw [if_neg hx] at h
      exact h

/-- Claim C4 (amended): the units-per-measure value follows the claimed
round-to-nearest of numerator times 8 / denominator on every supported
time signature (4/4 gives 8, 3/4 gives 6, 2/4 gives 4, 6/8 gives 6, 12/8
gives 12, 5/4 gives 10, 7/8 gives 7, all exact in floating point); on
arbitrary fractions the code's two-stage rounding of the floating-point
quotient can deviate from that formula, as the counterexample "31/500"
shows.  Every input without a slash cannot match the two-integer
pattern and yields the 4/4 defaults with 8 units rather than failing. -/
theorem c4_time_signature_contract :
    (∀ t ∈ timeSignatureOptions,
      (parseTimeSignature t).eighthsPerMeasure =
        jsRound (((parseTimeSignature t).numerator * 8 : ℚ) /
          (parseTimeSignature t).denominator)) ∧
    (∀ s : String, '/' ∉ s.toList → parseTimeSignature s = ⟨4, 4, 4, 8⟩) := by
  constructor
  · intro t ht
    fin_cases ht <;> with_unfolding_all rfl
  · intro s hs
    have hnone : ¬(((s.toList.dropWhile Char.isDigit).dropWhile
        Char.isWhitespace).head? = some '/') := by
      intro heq
      apply hs
      have h1 : '/' ∈ (s.toList.dropWhile Char.isDigit).dropWhile Char.isWhitespace :=
        List.mem_of_mem_head? (by rw [heq]; rfl)
      exact mem_of_mem_dropWhile _ _ _ (mem_of_mem_dropWhile _ _ _ h1)
    have hparts : parseTimeSigParts s = none := by
      unfold parseTimeSigParts
      rw [if_neg hnone]
    unfold parseTimeSignature
    rw [hparts]

/-- Witness for the C4 contract at the supported signature "5/4" and the
slash-free malformed input "abc". -/
theorem c4_time_signature_contract_witness :
    (parseTimeSignature "5/4").eighthsPerMeasure =
      jsRound (((parseTimeSignature "5/4").numerator * 8 : ℚ) /
        (parseTimeSignature "5/4").denominator) ∧
    parseTimeSignature "abc" = ⟨4, 4, 4, 8⟩ :=
  ⟨c4_time_signature_contract.1 "5/4" (by decide),
   c4_time_signature_contract.2 "abc" (by decide)⟩

/-! ## Pitch parsing -/

/-- Result record of `parsePitch` (src/src/App.tsx:137-157). -/
structure ParsedPitch where
  midi : ℤ
  octave : ℕ
  note : String
  deriving Repr, DecidableEq

/-- The character class `[A-G]` under the regex's `i` flag. -/
def isPitchLetter (c : Char) : Bool :=
  ('A' ≤ c && c ≤ 'G') || ('a' ≤ c && c ≤ 'g')

/-- The character class `[#b]` under the regex's `i` flag: it matches
'#', 'b' and also 'B' (case-insensitive matching folds the letter). -/
def isAccidentalChar (c : Char) : Bool :=
  c = '#' || c = 'b' || c = 'B'

/-- The `baseOffsets` record lookup with `?? 0` fallback, applied to the
lowercased letter (src/src/App.tsx:146-147 and 166-167). -/
def baseOffsetOf (letter : String) : ℤ :=
  if letter = "c" then 0
  else if letter = "d" then 2
  else if letter = "e" then 4
  else if letter = "f" then 5
  else if letter = "g" then 7
  else if letter = "a" then 9
  else if letter = "b" then 11
  else 0

/-- The accidental-offset chain of exact string comparisons
(src/src/App.tsx:149-153 and 169-173); any other accidental run gets
offset 0. -/
def accidentalOffsetOf (acc : String) : ℤ :=
  if acc = "#" then 1
  else if acc = "##" then 2
  else if acc = "b" then -1
  else if acc = "bb" then -2
  else 0

/-- The body of `parsePitch` on the character list of the input: the
regex `^([A-G])([#b]*)(\d+)$` (case-insensitive), then
`(octave + 1) * 12 + base + accidentalOffset`. -/
def parsePitchList (cs : List Char) : Option ParsedPitch :=
  if cs = [] then none
  else if isPitchLetter (cs.headD ' ') then
    if (cs.tail.dropWhile isAccidentalChar).takeWhile Char.isDigit = [] ∨
        (cs.tail.dropWhile isAccidentalChar).dropWhile Char.isDigit ≠ [] then none
    else
      some ⟨(digitsToNat ((cs.tail.dropWhile isAccidentalChar).takeWhile Char.isDigit) + 1) * 12
            + baseOffsetOf (String.mk [(cs.headD ' ').toLower])
            + accidentalOffsetOf (String.mk (cs.tail.takeWhile isAccidentalChar)),
          digitsToNat ((cs.tail.dropWhile isAccidentalChar).takeWhile Char.isDigit),
          String.mk [(cs.headD ' ').toLower]⟩
  else none

/-- `parsePitch` (src/src/App.tsx:137-157). -/
def parsePitch (pitch : String) : Option ParsedPitch :=
  parsePitchList pitch.toList

/-- JavaScript `String.prototype.split` with a one-character separator. -/
def splitOnChar (sep : Char) : List Char → List (List Char)
  | [] => [[]]
  | c :: rest =>
    if c = sep then [] :: splitOnChar sep rest
    else
      match splitOnChar sep rest with
      | [] => [[c]]
      | p :: ps => (c :: p) :: ps

/-- JavaScript `Number(...)` on the octave part of a note key, modelled
for the reachable shapes: the empty string is 0, an all-digit string is
its value, a minus sign followed by digits is negative, and anything
else is NaN (`none`). -/
def jsNumberOfDigits (os : List Char) : Option ℤ :=
  if os = [] then some 0
  else if os.all Char.isDigit then some (digitsToNat os : ℤ)
  else if os.head? = some '-' ∧ os.tail ≠ [] ∧ os.tail.all Char.isDigit then
    some (-(digitsToNat os.tail : ℤ))
  else none

/-- The computation of `noteToMidi` after splitting: `rawNote` is the
part before the first slash, `octaveStr` the part after it (`none` when
the key has no slash, in which case `Number(undefined)` is NaN).
Missing raw note or NaN octave returns 60 (src/src/App.tsx:159-176). -/
def noteToMidiFrom (rawNote : List Char) (octaveStr : Option (List Char)) : ℤ :=
  (octaveStr.bind jsNumberOfDigits).elim 60 (fun octave =>
    if rawNote = [] then 60
    else (octave + 1) * 12 + baseOffsetOf (String.mk [(rawNote.headD ' ').toLower])
      + accidentalOffsetOf (String.mk rawNote.tail))

/-- `noteToMidi` (src/src/App.tsx:159-176). -/
def noteToMidi (noteKey : String) : ℤ :=
  noteToMidiFrom ((splitOnChar '/' noteKey.toList).headD [])
    ((splitOnChar '/' noteKey.toList).get? 1)

theorem isAccidentalChar_cases (c : Char) (h : isAccidentalChar c = true) :
    c = '#' ∨ c = 'b' ∨ c = 'B' := by
  revert h
  simp only [isAccidentalChar, Bool.or_eq_true, decide_eq_true_eq]
  tauto

theorem isDigit_not_accidental (c : Char) (h : c.isDigit = true) :
    isAccidentalChar c = false := by
  by_contra hb
  have hb' : isAccidentalChar c = true := by simpa using hb
  rcases isAccidentalChar_cases c hb' with rfl | rfl | rfl <;>
    exact absurd h (by decide)

/-- Evaluation of the pitch regex on a well-formed
`<letter><accidentals><digits>` character list. -/
theorem parsePitchList_eval (c : Char) (hc : isPitchLetter c = true)
    (accL : List Char) (ha : ∀ a ∈ accL, isAccidentalChar a = true)
    (digs : List Char) (h1 : digs ≠ []) (h2 : ∀ ch ∈ digs, ch.isDigit = true) :
    parsePitchList (c :: accL ++ digs) =
      some ⟨(digitsToNat digs + 1) * 12 + baseOffsetOf (String.mk [c.toLower])
              + accidentalOffsetOf (String.mk accL),
            digitsToNat digs, String.mk [c.toLower]⟩ := by
  rcases List.exists_cons_of_ne_nil h1 with ⟨d, ds, rfl⟩
  have hd : isAccidentalChar d = false := isDigit_not_accidental d (h2 d (by simp))
  unfold parsePitchList
  rw [List.cons_append]
  simp only [List.headD_cons, List.tail_cons]
  rw [takeWhile_append_cons isAccidentalChar accL ds d ha hd]
  rw [dropWhile_append_cons isAccidentalChar accL ds d ha hd]
  rw [takeWhile_of_all Char.isDigit (d :: ds) h2]
  rw [dropWhile_of_all Char.isDigit (d :: ds) h2]
  simp [hc]

theorem splitOnChar_of_no_sep (sep : Char) (l : List Char)
    (h : ∀ c ∈ l, c ≠ sep) : splitOnChar sep l = [l] := by
  induction l with
  | nil => rfl
  | cons c cs ih =>
    have hcs : c ≠ sep := h c (by simp)
    rw [splitOnChar, if_neg hcs, ih (fun a ha => h a (by simp [ha]))]

theorem splitOnChar_around_sep (sep : Char) (l1 l2 : List Char)
    (h1 : ∀ c ∈ l1, c ≠ sep) (h2 : ∀ c ∈ l2, c ≠ sep) :
    splitOnChar sep (l1 ++ sep :: l2) = [l1, l2] := by
  induction l1 with
  | nil =>
    rw [List.nil_append, splitOnChar, if_pos rfl, splitOnChar_of_no_sep sep l2 h2]
  | cons c cs ih =>
    have hcs : c ≠ sep := h1 c (by simp)
    rw [List.cons_append, splitOnChar, if_neg hcs, ih (fun a ha => h1 a (by simp [ha]))]

/-- Evaluation of `noteToMidi` on a well-formed
`<letter><accidentals>/<digits>` key. -/
theorem noteToMidi_eval (l : Char) (accL : List Char) (digs : List Char)
    (hl : l ≠ '/') (hacc : ∀ a ∈ accL, a ≠ '/')
    (h1 : digs ≠ []) (h2 : ∀ ch ∈ digs, ch.isDigit = true) :
    noteToMidi (String.mk (l :: accL ++ '/' :: digs)) =
      (digitsToNat digs + 1) * 12 + baseOffsetOf (String.mk [l.toLower])
        + accidentalOffsetOf (String.mk accL) := by
  have hsplit : splitOnChar '/' ((l :: accL) ++ '/' :: digs) = [l :: accL, digs] :=
    splitOnChar_around_sep '/' (l :: accL) digs
      (by intro a ha; rcases List.mem_cons.1 ha with rfl | h
          · exact hl
          · exact hacc a h)
      (by intro a ha; exact isDigit_not_slash a (h2 a ha))
  have htl : (String.mk (l :: accL ++ '/' :: digs)).toList = (l :: accL) ++ '/' :: digs := by
    simp
  unfold noteToMidi
  rw [htl, hsplit]
  have hnum : jsNumberOfDigits digs = some (digitsToNat digs : ℤ) := by
    unfold jsNumberOfDigits
    rw [if_neg h1, if_pos (List.all_eq_true.2 h2)]
  have hget : ([l :: accL, digs] : List (List Char)).get? 1 = some digs := rfl
  rw [hget]
  unfold noteToMidiFrom
  rw [Option.some_bind, hnum]
  simp

/-- The letter-offset table of the claim, for uppercase diatonic
letters: C 0, D 2, E 4, F 5, G 7, A 9, B 11. -/
def letterOffsetSpec (c : Char) : ℤ :=
  if c = 'C' then 0
  else if c = 'D' then 2
  else if c = 'E' then 4
  else if c = 'F' then 5
  else if c = 'G' then 7
  else if c = 'A' then 9
  else if c = 'B' then 11
  else 0

/-- The accidental-offset table of the claim: bb is -2, b is -1,
sharp is +1, double sharp is +2, no accidental is 0. -/
def accidentalOffsetSpec (acc : String) : ℤ :=
  if acc = "bb" then -2
  else if acc = "b" then -1
  else if acc = "#" then 1
  else if acc = "##" then 2
  else 0

theorem letterOffset_agree (c : Char) (hc : c ∈ (['C','D','E','F','G','A','B'] : List Char)) :
    baseOffsetOf (String.mk [c.toLower]) = letterOffsetSpec c ∧
      baseOffsetOf (String.mk [c.toLower.toLower]) = letterOffsetSpec c := by
  fin_cases hc <;> constructor <;> with_unfolding_all rfl

theorem accOffset_agree (aL : List Char)
    (ha : aL ∈ ([[], ['#'], ['#','#'], ['b'], ['b','b']] : List (List Char))) :
    accidentalOffsetOf (String.mk aL) = accidentalOffsetSpec (String.mk aL) := by
  fin_cases ha <;> with_unfolding_all rfl

/-- Claim C8 (confirmed): for every well-formed pitch string
`<letter><accidentals><octave>` (uppercase diatonic letter, accidentals
among none, #, ##, b, bb, and a non-empty digit run for the octave),
`parsePitch` returns height `(octave + 1) * 12` plus the letter offset
(C 0, D 2, E 4, F 5, G 7, A 9, B 11) plus the accidental offset
(bb -2, b -1, # +1, ## +2); in particular "C4" gives 60, "G#5" gives 80
and "Bb3" gives 58. -/
theorem c8_parse_pitch_height :
    (∀ c ∈ (['C','D','E','F','G','A','B'] : List Char),
      ∀ accL ∈ ([[], ['#'], ['#','#'], ['b'], ['b','b']] : List (List Char)),
      ∀ digs : List Char, digs ≠ [] → (∀ ch ∈ digs, ch.isDigit = true) →
        parsePitch (String.mk (c :: accL ++ digs)) =
          some ⟨(digitsToNat digs + 1) * 12 + letterOffsetSpec c
                  + accidentalOffsetSpec (String.mk accL),
                digitsToNat digs, String.mk [c.toLower]⟩) ∧
    (parsePitch "C4").map ParsedPitch.midi = some 60 ∧
    (parsePitch "G#5").map ParsedPitch.midi = some 80 ∧
    (parsePitch "Bb3").map ParsedPitch.midi = some 58 := by
  refine ⟨?_, ?_, ?_, ?_⟩
  · intro c hc accL haccL digs h1 h2
    have hc' : isPitchLetter c = true :=
      (by decide : ∀ x ∈ (['C','D','E','F','G','A','B'] : List Char),
        isPitchLetter x = true) c hc
    have ha' : ∀ a ∈ accL, isAccidentalChar a = true :=
      (by decide : ∀ aL ∈ ([[], ['#'], ['#','#'], ['b'], ['b','b']] : List (List Char)),
        ∀ a ∈ aL, isAccidentalChar a = true) accL haccL
    have hstr : parsePitch (String.mk (c :: accL ++ digs)) =
        parsePitchList (c :: accL ++ digs) := rfl
    rw [hstr, parsePitchList_eval c hc' accL ha' digs h1 h2]
    rw [(letterOffset_agree c hc).1, accOffset_agree accL haccL]
  · with_unfolding_all rfl
  · with_unfolding_all rfl
  · with_unfolding_all rfl

/-- Witness for C8 at the concrete pitch string "D#7". -/
theorem c8_parse_pitch_height_witness :
    parsePitch "D#7" = some ⟨99, 7, "d"⟩ := by
  have h := c8_parse_pitch_height.1 'D' (by decide) ['#'] (by decide) ['7']
    (by decide) (by decide)
  rw [show ("D#7" : String) = String.mk ('D' :: ['#'] ++ ['7']) from rfl]
  rw [h]
  with_unfolding_all rfl

/-- Claim C10 (confirmed): the two pitch-to-height conversions agree:
for every diatonic letter, accidental among none, #, ##, b, bb, and
octave digit run, `parsePitch` on `<Letter><accidentals><octave>` and
`noteToMidi` on `<letter><accidentals>/<octave>` return the same
height. -/
theorem c10_pitch_conversions_agree :
    ∀ c ∈ (['C','D','E','F','G','A','B'] : List Char),
    ∀ accL ∈ ([[], ['#'], ['#','#'], ['b'], ['b','b']] : List (List Char)),
    ∀ digs : List Char, digs ≠ [] → (∀ ch ∈ digs, ch.isDigit = true) →
      (parsePitch (String.mk (c :: accL ++ digs))).map ParsedPitch.midi =
        some (noteToMidi (String.mk (c.toLower :: accL ++ '/' :: digs))) := by
  intro c hc accL haccL digs h1 h2
  have hc' : isPitchLetter c = true :=
    (by decide : ∀ x ∈ (['C','D','E','F','G','A','B'] : List Char),
      isPitchLetter x = true) c hc
  have ha' : ∀ a ∈ accL, isAccidentalChar a = true :=
    (by decide : ∀ aL ∈ ([[], ['#'], ['#','#'], ['b'], ['b','b']] : List (List Char)),
      ∀ a ∈ aL, isAccidentalChar a = true) accL haccL
  have hl : c.toLower ≠ '/' :=
    (by decide : ∀ x ∈ (['C','D','E','F','G','A','B'] : List Char),
      x.toLower ≠ '/') c hc
  have haccs : ∀ a ∈ accL, a ≠ '/' :=
    (by decide : ∀ aL ∈ ([[], ['#'], ['#','#'], ['b'], ['b','b']] : List (List Char)),
      ∀ a ∈ aL, a ≠ '/') accL haccL
  have e1 : parsePitch (String.mk (c :: accL ++ digs)) =
      parsePitchList (c :: accL ++ digs) := rfl
  rw [e1, parsePitchList_eval c hc' accL ha' digs h1 h2]
  rw [noteToMidi_eval c.toLower accL digs hl haccs h1 h2]
  simp only [Option.map_some']
  rw [(letterOffset_agree c hc).1, (letterOffset_agree c hc).2]

/-- Witness for C10 at the concrete pitch "Eb3" versus key "eb/3". -/
theorem c10_pitch_conversions_agree_witness :
    (parsePitch "Eb3").map ParsedPitch.midi = some (noteToMidi "eb/3") := by
  have h := c10_pitch_conversions_agree 'E' (by decide) ['b'] (by decide) ['3']
    (by decide) (by decide)
  rw [show ("Eb3" : String) = String.mk ('E' :: ['b'] ++ ['3']) from rfl]
  rw [show ("eb/3" : String) = String.mk ('E'.toLower :: ['b'] ++ '/' :: ['3']) from
    by with_unfolding_all rfl]
  exact h

/-! ## The measure generator -/

/-- The `Duration` union type: quarter, eighth, half. -/
inductive Duration where
  | q
  | e8
  | h
  deriving Repr, DecidableEq, Inhabited

/-- Eighth-unit length of each duration (q 2, 8 1, h 4). -/
def eighthsOfDur : Duration → ℕ
  | .q => 2
  | .e8 => 1
  | .h => 4

/-- One entry of `durationPool` (src/src/App.tsx:74-78). -/
structure DurEntry where
  duration : Duration
  beats : ℚ
  eighths : ℕ
  deriving Repr, DecidableEq, Inhabited

/-- `durationPool` (src/src/App.tsx:74-78). -/
def durationPool : List DurEntry :=
  [⟨.q, 1, 2⟩, ⟨.e8, 1/2, 1⟩, ⟨.h, 2, 4⟩]

/-- `NoteSpec` (src/src/App.tsx:19-24); the optional accidental and rest
flag are normalized to `Option`/`Bool`. -/
structure NoteSpec where
  key : String
  accidental : Option String
  duration : Duration
  isRest : Bool
  deriving Repr, DecidableEq

/-- The result of `keyManager.selectNote` for a diatonic letter.  The
vexflow `KeyManager` is an external dependency; the generator only reads
the selected note name and accidental. -/
structure Selection where
  note : String
  accidental : Option String

/-- `baseNotes` (src/src/App.tsx:188). -/
def baseNotes : List String :=
  ["c", "d", "e", "f", "g", "a", "b"]

/-- A value of `Math.random()`: a rational in [0, 1). -/
def Rand01 : Type := {q : ℚ // 0 ≤ q ∧ q < 1}

/-- The stream of successive `Math.random()` results. -/
def RandStream : Type := ℕ → Rand01

/-- `randomChoice` (src/src/App.tsx:110-112):
`items[Math.floor(u * items.length)]`, given the drawn `u`. -/
def randomChoice {α : Type} (items : List α) (u : ℚ) (d : α) : α :=
  items.getD (Int.floor (u * items.length)).toNat d

/-- The accumulation loop of `weightedChoice` (src/src/App.tsx:117-121):
return the first item whose running weight total reaches the draw. -/
def wcGo {α : Type} : List (α × ℚ) → ℚ → ℚ → α → α
  | [], _, _, d => d
  | (x, w) :: rest, r, acc, d => if r ≤ acc + w then x else wcGo rest r (acc + w) d

/-- `weightedChoice` (src/src/App.tsx:114-123): the draw is
`u * total`; falling through the loop returns the last item. -/
def weightedChoice {α : Type} [Inhabited α] (items : List α) (weights : List ℚ)
    (u : ℚ) : α :=
  wcGo (items.zip weights) (u * weights.sum) 0 (items.getLastD default)

/-- The per-candidate duration weight (src/src/App.tsx:227-232):
base 1 with a shorter boost, a longer boost and a mid boost. -/
def weightOf (densityFrac : ℚ) (d : DurEntry) : ℚ :=
  1 * (if d.eighths ≤ 1 then 1 + densityFrac * 2 else 1)
    * (if 4 ≤ d.eighths then 1 + (1 - densityFrac) * 2 else 1)
    * (if d.eighths = 2 then 1 + densityFrac * 0.5 else 1)

/-- The generation context: the key manager's `selectNote`, the random
stream, and the values `generateMeasures` derives once per call. -/
structure GenCtx where
  selectNote : String → Selection
  rng : RandStream
  densityFrac : ℚ
  restChance : ℚ
  lowestMidi : ℤ
  highestMidi : ℤ
  validOctaves : List ℕ

/-- The mutable `octave` / `letter` / `selection` trio of the pitch
selection loop (src/src/App.tsx:239-241). -/
structure PitchPick where
  octave : ℕ
  letter : String
  selection : Selection

/-- The note key `` `${selection.note}/${octave}` `` built for a pick. -/
def pitchKeyOf (ps : PitchPick) : String :=
  ps.selection.note ++ "/" ++ toString ps.octave

/-- The range test `midi >= lowestMidi && midi <= highestMidi`. -/
def inMidiRange (ctx : GenCtx) (m : ℤ) : Bool :=
  decide (ctx.lowestMidi ≤ m) && decide (m ≤ ctx.highestMidi)

/-- One random draw of the retry loop body (src/src/App.tsx:244-246):
an octave from the valid octaves, a letter from the base notes, and the
key manager's selection for that letter. -/
def drawPick (ctx : GenCtx) (idx : ℕ) : PitchPick :=
  ⟨randomChoice ctx.validOctaves (ctx.rng idx).val 4,
   randomChoice baseNotes (ctx.rng (idx + 1)).val "c",
   ctx.selectNote (randomChoice baseNotes (ctx.rng (idx + 1)).val "c")⟩

/-- The bounded rejection-sampling loop (src/src/App.tsx:243-255): up to
50 failed attempts; returns the next stream index, whether a note was
generated, and the last pick. -/
def retryPitch (ctx : GenCtx) : ℕ → ℕ → PitchPick → ℕ × Bool × PitchPick
  | 0, idx, ps => (idx, false, ps)
  | fuel + 1, idx, _ps =>
    if inMidiRange ctx (noteToMidi (pitchKeyOf (drawPick ctx idx))) then
      (idx + 2, true, drawPick ctx idx)
    else retryPitch ctx fuel (idx + 2) (drawPick ctx idx)

/-- The exhaustive fallback scan (src/src/App.tsx:258-274): first
in-range (octave, letter) combination in nested order. -/
def scanPitch (ctx : GenCtx) : Option PitchPick :=
  ctx.validOctaves.findSome? (fun o =>
    baseNotes.findSome? (fun l =>
      if inMidiRange ctx (noteToMidi ((ctx.selectNote l).note ++ "/" ++ toString o)) then
        some ⟨o, l, ctx.selectNote l⟩
      else none))

/-- The last-resort pick (src/src/App.tsx:276-280): middle valid octave,
first base note. -/
def fallbackPick (ctx : GenCtx) : PitchPick :=
  ⟨ctx.validOctaves.getD (ctx.validOctaves.length / 2) 4, "c", ctx.selectNote "c"⟩

/-- Full pitch selection for one event (src/src/App.tsx:236-281): retry
loop, then exhaustive scan, then last-resort fallback. -/
def pickPitch (ctx : GenCtx) (idx : ℕ) : ℕ × PitchPick :=
  match retryPitch ctx 50 idx ⟨ctx.validOctaves.headD 4, "c", ctx.selectNote "c"⟩ with
  | (idx1, true, ps) => (idx1, ps)
  | (idx1, false, _) =>
    match scanPitch ctx with
    | some ps => (idx1, ps)
    | none => (idx1, fallbackPick ctx)

/-- The weighted duration choice for the current remaining units
(src/src/App.tsx:215-234). -/
def fillChoice (ctx : GenCtx) (left : ℤ) (idx : ℕ) : DurEntry :=
  weightedChoice (durationPool.filter (fun d => decide ((d.eighths : ℤ) ≤ left)))
    ((durationPool.filter (fun d => decide ((d.eighths : ℤ) ≤ left))).map
      (weightOf ctx.densityFrac))
    (ctx.rng idx).val

/-- The measure-filling loop (src/src/App.tsx:211-293).  The JavaScript
loop runs while `eighthsLeft > 0`; every iteration consumes at least one
eighth-unit, so running it with `eighthsLeft.toNat` units of fuel is
exact.  The first branch is the defensive forced rest for the (provably
unreachable) case of no fitting duration.  Returns the measure and the
next stream index. -/
def fillMeasure (ctx : GenCtx) : ℕ → ℤ → ℕ → List NoteSpec × ℕ
  | 0, _, idx => ([], idx)
  | fuel + 1, left, idx =>
    if left ≤ 0 then ([], idx)
    else if durationPool.filter (fun d => decide ((d.eighths : ℤ) ≤ left)) = [] then
      ([⟨"b/4", none, Duration.e8, true⟩], idx)
    else
      (⟨pitchKeyOf (pickPitch ctx (idx + 1)).2,
          (pickPitch ctx (idx + 1)).2.selection.accidental,
          (fillChoice ctx left idx).duration,
          decide ((ctx.rng (pickPitch ctx (idx + 1)).1).val < ctx.restChance)⟩ ::
        (fillMeasure ctx fuel (left - ((fillChoice ctx left idx).eighths : ℤ))
          ((pickPitch ctx (idx + 1)).1 + 1)).1,
       (fillMeasure ctx fuel (left - ((fillChoice ctx left idx).eighths : ℤ))
          ((pickPitch ctx (idx + 1)).1 + 1)).2)

/-- The outer bar loop of `generateMeasures` (src/src/App.tsx:210-296),
threading the random stream index through the measures. -/
def genLoop (ctx : GenCtx) (eighthsPerMeasure : ℤ) : ℕ → ℕ → List (List NoteSpec)
  | 0, _ => []
  | n + 1, idx =>
    (fillMeasure ctx eighthsPerMeasure.toNat eighthsPerMeasure idx).1 ::
      genLoop ctx eighthsPerMeasure n
        (fillMeasure ctx eighthsPerMeasure.toNat eighthsPerMeasure idx).2

/-- Pitch bound resolution (src/src/App.tsx:194-195):
`pitch ? parsePitch(pitch)?.midi ?? dfl : dfl`. -/
def resolveMidiBound (p : Option String) (dfl : ℤ) : ℤ :=
  p.elim dfl (fun s =>
    if s = "" then dfl else ((parsePitch s).map ParsedPitch.midi).getD dfl)

/-- Valid octave computation (src/src/App.tsx:198-206): octaves 2..7
whose C..B span overlaps the bounds, with `[4]` as fallback when none
overlaps. -/
def validOctavesFor (lowestMidi highestMidi : ℤ) : List ℕ :=
  if (List.range' 2 6).filter (fun oct =>
      decide (lowestMidi ≤ ((oct : ℤ) + 1) * 12 + 11) &&
        decide (((oct : ℤ) + 1) * 12 ≤ highestMidi)) = [] then [4]
  else (List.range' 2 6).filter (fun oct =>
      decide (lowestMidi ≤ ((oct : ℤ) + 1) * 12 + 11) &&
        decide (((oct : ℤ) + 1) * 12 ≤ highestMidi))

/-- `generateMeasures` (src/src/App.tsx:178-299).  The key manager is
passed as its `selectNote` capability; the random stream stands for the
successive `Math.random()` calls.  The density is a rational, so the
`Number.isFinite` guard of line 189 is always satisfied. -/
def generateMeasures (selectNote : String → Selection) (rng : RandStream) (bars : ℕ)
    (timeSig : String) (noteDensity : ℚ) (lowestPitch highestPitch : Option String) :
    List (List NoteSpec) :=
  genLoop
    { selectNote := selectNote
      rng := rng
      densityFrac := max 0 (min 1 (noteDensity / 100))
      restChance := max 0 (min 0.4 (0.4 - max 0 (min 1 (noteDensity / 100)) * 0.35))
      lowestMidi := resolveMidiBound lowestPitch 48
      highestMidi := resolveMidiBound highestPitch 84
      validOctaves := validOctavesFor (resolveMidiBound lowestPitch 48)
        (resolveMidiBound highestPitch 84) }
    (parseTimeSignature timeSig).eighthsPerMeasure bars 0

theorem getLastD_mem {α : Type} (l : List α) (d : α) (h : l ≠ []) :
    l.getLastD d ∈ l := by
  induction l generalizing d with
  | nil => exact absurd rfl h
  | cons a l ih =>
    cases l with
    | nil => simp
    | cons b m =>
      have hm := ih a (by simp)
      simp only [List.getLastD_cons] at hm ⊢
      exact List.mem_cons_of_mem a hm

theorem wcGo_mem {α : Type} (pairs : List (α × ℚ)) (r acc : ℚ) (d : α) :
    wcGo pairs r acc d = d ∨ ∃ p ∈ pairs, wcGo pairs r acc d = p.1 := by
  induction pairs generalizing acc with
  | nil => left; rfl
  | cons pw rest ih =>
    obtain ⟨x, w⟩ := pw
    unfold wcGo
    split
    · right; exact ⟨(x, w), by simp, rfl⟩
    · rcases ih (acc + w) with h | ⟨p, hp, he⟩
      · left; exact h
      · right; exact ⟨p, by simp [hp], he⟩

/-- `weightedChoice` always returns a member of a non-empty item list,
for any weights and any draw. -/
theorem weightedChoice_mem {α : Type} [Inhabited α] (items : List α) (ws : List ℚ)
    (u : ℚ) (hne : items ≠ []) : weightedChoice items ws u ∈ items := by
  unfold weightedChoice
  rcases wcGo_mem (items.zip ws) (u * ws.sum) 0 (items.getLastD default) with h | ⟨p, hp, he⟩
  · rw [h]; exact getLastD_mem items default hne
  · rw [he]; exact (List.of_mem_zip hp).1

theorem durationPool_eighths (d : DurEntry) (hd : d ∈ durationPool) :
    d.eighths = eighthsOfDur d.duration ∧ 1 ≤ d.eighths := by
  fin_cases hd <;> exact ⟨rfl, by decide⟩

theorem allowed_ne_nil (left : ℤ) (h : 0 < left) :
    durationPool.filter (fun d => decide ((d.eighths : ℤ) ≤ left)) ≠ [] := by
  have hmem : (⟨Duration.e8, 1/2, 1⟩ : DurEntry) ∈
      durationPool.filter (fun d => decide ((d.eighths : ℤ) ≤ left)) := by
    refine List.mem_filter.2 ⟨by simp [durationPool], ?_⟩
    simp only [decide_eq_true_eq]
    show ((1 : ℕ) : ℤ) ≤ left
    omega
  exact List.ne_nil_of_mem hmem

/-- The filling loop consumes exactly the remaining units: with enough
fuel (one per unit) the produced events' eighth-unit lengths sum to the
starting value. -/
theorem fillMeasure_sum (ctx : GenCtx) :
    ∀ fuel (left : ℤ) idx, 0 ≤ left → left.toNat ≤ fuel →
      ((fillMeasure ctx fuel left idx).1.map
        (fun ev => (eighthsOfDur ev.duration : ℤ))).sum = left := by
  intro fuel
  induction fuel with
  | zero =>
    intro left idx h0 hf
    have h : left = 0 := by omega
    subst h
    simp [fillMeasure]
  | succ fuel ih =>
    intro left idx h0 hf
    by_cases hl : left ≤ 0
    · have h : left = 0 := le_antisymm hl h0
      subst h
      simp [fillMeasure]
    · push_neg at hl
      have hne := allowed_ne_nil left hl
      have hmem : fillChoice ctx left idx ∈
          durationPool.filter (fun d => decide ((d.eighths : ℤ) ≤ left)) :=
        weightedChoice_mem _ _ _ hne
      have hpool : fillChoice ctx left idx ∈ durationPool := (List.mem_filter.1 hmem).1
      have hle : ((fillChoice ctx left idx).eighths : ℤ) ≤ left :=
        of_decide_eq_true (List.mem_filter.1 hmem).2
      obtain ⟨heq, hpos⟩ := durationPool_eighths _ hpool
      simp only [fillMeasure, if_neg (not_le.2 hl), if_neg hne]
      rw [List.map_cons, List.sum_cons]
      rw [ih (left - ((fillChoice ctx left idx).eighths : ℤ)) _ (by omega) (by omega)]
      show (eighthsOfDur (fillChoice ctx left idx).duration : ℤ)
        + (left - ((fillChoice ctx left idx).eighths : ℤ)) = left
      omega

theorem genLoop_mem (ctx : GenCtx) (E : ℤ) :
    ∀ n idx m, m ∈ genLoop ctx E n idx → ∃ j, m = (fillMeasure ctx E.toNat E j).1 := by
  intro n
  induction n with
  | zero => intro idx m hm; simp [genLoop] at hm
  | succ n ih =>
    intro idx m hm
    simp only [genLoop, List.mem_cons] at hm
    rcases hm with rfl | hm
    · exact ⟨idx, rfl⟩
    · exact ih _ m hm

theorem supported_eighths_values :
    (parseTimeSignature "4/4").eighthsPerMeasure = 8 ∧
    (parseTimeSignature "3/4").eighthsPerMeasure = 6 ∧
    (parseTimeSignature "2/4").eighthsPerMeasure = 4 ∧
    (parseTimeSignature "6/8").eighthsPerMeasure = 6 ∧
    (parseTimeSignature "12/8").eighthsPerMeasure = 12 ∧
    (parseTimeSignature "5/4").eighthsPerMeasure = 10 ∧
    (parseTimeSignature "7/8").eighthsPerMeasure = 7 := by
  refine ⟨?_, ?_, ?_, ?_, ?_, ?_, ?_⟩ <;> with_unfolding_all rfl

/-- Claim C1 (confirmed): for every call to `generateMeasures` (any key
manager, random stream, bar count, supported time signature, density and
pitch range), every generated measure's events have eighth-unit lengths
summing exactly to the `eighthsPerMeasure` value computed by
`parseTimeSignature` for that time signature. -/
theorem c1_measures_sum_to_units :
    ∀ (selectNote : String → Selection) (rng : RandStream) (bars : ℕ) (timeSig : String)
      (noteDensity : ℚ) (lowestPitch highestPitch : Option String),
      timeSig ∈ timeSignatureOptions →
      ∀ m ∈ generateMeasures selectNote rng bars timeSig noteDensity lowestPitch highestPitch,
        (m.map (fun ev => (eighthsOfDur ev.duration : ℤ))).sum =
          (parseTimeSignature timeSig).eighthsPerMeasure := by
  intro sn rng bars timeSig density lo hi hts m hm
  have hE : 0 ≤ (parseTimeSignature timeSig).eighthsPerMeasure := by
    obtain ⟨e1, e2, e3, e4, e5, e6, e7⟩ := supported_eighths_values
    fin_cases hts <;> omega
  unfold generateMeasures at hm
  obtain ⟨j, rfl⟩ := genLoop_mem _ _ bars 0 m hm
  exact fillMeasure_sum _ _ _ _ hE (le_refl _)

/-- A concrete key manager that keeps every letter natural, used in
witnesses. -/
def naturalSel : String → Selection := fun l => ⟨l, none⟩

/-- The constant random stream 0, used in witnesses. -/
def zeroStream : RandStream := fun _ => ⟨0, by norm_num⟩

/-- The constant random stream 1/2, used in witnesses. -/
def halfStream : RandStream := fun _ => ⟨1/2, by norm_num⟩

/-- Witness for C1 on a concrete one-bar 4/4 generation. -/
theorem c1_measures_sum_to_units_witness :
    (((generateMeasures naturalSel zeroStream 1 "4/4" 70 none none).headD []).map
      (fun ev => (eighthsOfDur ev.duration : ℤ))).sum =
      (parseTimeSignature "4/4").eighthsPerMeasure := by
  have hG : generateMeasures naturalSel zeroStream 1 "4/4" 70 none none =
      [[⟨"c/3", none, Duration.q, true⟩, ⟨"c/3", none, Duration.q, true⟩,
        ⟨"c/3", none, Duration.q, true⟩, ⟨"c/3", none, Duration.q, true⟩]] := by
    with_unfolding_all rfl
  have hmem : (generateMeasures naturalSel zeroStream 1 "4/4" 70 none none).headD [] ∈
      generateMeasures naturalSel zeroStream 1 "4/4" 70 none none := by
    rw [hG]; simp
  exact c1_measures_sum_to_units naturalSel zeroStream 1 "4/4" 70 none none (by decide) _ hmem

theorem retryPitch_inRange (ctx : GenCtx) :
    ∀ fuel idx ps, (retryPitch ctx fuel idx ps).2.1 = true →
      inMidiRange ctx (noteToMidi (pitchKeyOf (retryPitch ctx fuel idx ps).2.2)) = true := by
  intro fuel
  induction fuel with
  | zero => intro idx ps h; simp [retryPitch] at h
  | succ fuel ih =>
    intro idx ps h
    by_cases hc : inMidiRange ctx (noteToMidi (pitchKeyOf (drawPick ctx idx))) = true
    · simp only [retryPitch, if_pos hc] at h ⊢
      exact hc
    · simp only [retryPitch, if_neg hc] at h ⊢
      exact ih _ _ h

theorem scanPitch_inRange (ctx : GenCtx) (ps : PitchPick) (h : scanPitch ctx = some ps) :
    inMidiRange ctx (noteToMidi (pitchKeyOf ps)) = true := by
  unfold scanPitch at h
  obtain ⟨o, ho, hinner⟩ := List.exists_of_findSome?_eq_some h
  obtain ⟨l, hl, hif⟩ := List.exists_of_findSome?_eq_some hinner
  by_cases hc : inMidiRange ctx (noteToMidi ((ctx.selectNote l).note ++ "/" ++ toString o)) = true
  · rw [if_pos hc] at hif
    cases hif
    exact hc
  · rw [if_neg hc] at hif
    exact absurd hif (by simp)

theorem scanPitch_none (ctx : GenCtx) (h : scanPitch ctx = none) :
    ∀ o ∈ ctx.validOctaves, ∀ l ∈ baseNotes,
      ¬(ctx.lowestMidi ≤ noteToMidi ((ctx.selectNote l).note ++ "/" ++ toString o) ∧
        noteToMidi ((ctx.selectNote l).note ++ "/" ++ toString o) ≤ ctx.highestMidi) := by
  intro o ho l hl
  unfold scanPitch at h
  have hmid := List.findSome?_eq_none_iff.1 h o ho
  have hinner := List.findSome?_eq_none_iff.1 hmid l hl
  by_cases hc : inMidiRange ctx (noteToMidi ((ctx.selectNote l).note ++ "/" ++ toString o)) = true
  · rw [if_pos hc] at hinner
    exact absurd hinner (by simp)
  · intro hcontra
    apply hc
    simp only [inMidiRange, Bool.and_eq_true, decide_eq_true_eq]
    exact hcontra

/-- The pitch selected for an event is either in range or, when the
exhaustive scan finds nothing, the last-resort fallback pick. -/
theorem pickPitch_spec (ctx : GenCtx) (idx : ℕ) :
    inMidiRange ctx (noteToMidi (pitchKeyOf (pickPitch ctx idx).2)) = true ∨
      (scanPitch ctx = none ∧ (pickPitch ctx idx).2 = fallbackPick ctx) := by
  unfold pickPitch
  split
  · rename_i idx1 ps heq
    left
    have hr : (retryPitch ctx 50 idx ⟨ctx.validOctaves.headD 4, "c", ctx.selectNote "c"⟩).2.1
        = true := by rw [heq]
    have := retryPitch_inRange ctx 50 idx ⟨ctx.validOctaves.headD 4, "c", ctx.selectNote "c"⟩ hr
    rw [heq] at this
    exact this
  · rename_i idx1 pdead heq
    split
    · rename_i ps hscan
      left
      exact scanPitch_inRange ctx ps hscan
    · rename_i hscan
      right
      exact ⟨hscan, rfl⟩

theorem fillMeasure_key (ctx : GenCtx) :
    ∀ fuel (left : ℤ) idx, ∀ ev ∈ (fillMeasure ctx fuel left idx).1,
      ev.isRest = true ∨ ∃ j, ev.key = pitchKeyOf (pickPitch ctx j).2 := by
  intro fuel
  induction fuel with
  | zero => intro left idx ev hev; simp [fillMeasure] at hev
  | succ fuel ih =>
    intro left idx ev hev
    by_cases hl : left ≤ 0
    · simp [fillMeasure, if_pos hl] at hev
    · by_cases hf : durationPool.filter (fun d => decide ((d.eighths : ℤ) ≤ left)) = []
      · simp only [fillMeasure, if_neg hl, if_pos hf, List.mem_singleton] at hev
        subst hev
        left
        rfl
      · simp only [fillMeasure, if_neg hl, if_neg hf, List.mem_cons] at hev
        rcases hev with rfl | hev
        · right; exact ⟨idx + 1, rfl⟩
        · exact ih _ _ ev hev

/-- Every non-rest event of a filled measure carries a pitch key that is
in range, or the scan failed and the key is the fallback key. -/
theorem generated_key_spec (ctx : GenCtx) (fuel : ℕ) (left : ℤ) (idx : ℕ) :
    ∀ ev ∈ (fillMeasure ctx fuel left idx).1, ev.isRest = false →
      inMidiRange ctx (noteToMidi ev.key) = true ∨
        (scanPitch ctx = none ∧ ev.key = pitchKeyOf (fallbackPick ctx)) := by
  intro ev hev hrest
  rcases fillMeasure_key ctx fuel left idx ev hev with hr | ⟨j, hkey⟩
  · rw [hr] at hrest
    exact absurd hrest (by simp)
  · rcases pickPitch_spec ctx j with hin | ⟨hnone, hfb⟩
    · left; rw [hkey]; exact hin
    · right
      exact ⟨hnone, by rw [hkey, hfb]⟩

theorem inMidiRange_iff (ctx : GenCtx) (m : ℤ) :
    inMidiRange ctx m = true ↔ ctx.lowestMidi ≤ m ∧ m ≤ ctx.highestMidi := by
  simp [inMidiRange]

theorem resolveMidiBound_parse (s : String) (p : ParsedPitch) (dfl : ℤ)
    (hs : s ≠ "") (hp : parsePitch s = some p) :
    resolveMidiBound (some s) dfl = p.midi := by
  show (if s = "" then dfl else ((parsePitch s).map ParsedPitch.midi).getD dfl) = p.midi
  rw [if_neg hs, hp]
  rfl

/-- Claim C2 (confirmed): with an explicit parseable pitch range, every
non-rest generated event's resolved height lies within the bounds,
except when no (candidate octave, diatonic letter) combination under the
active key yields an in-range height, in which case the event carries
the middle candidate octave with the first diatonic letter. -/
theorem c2_generated_pitches_in_range :
    ∀ (selectNote : String → Selection) (rng : RandStream) (bars : ℕ) (timeSig : String)
      (noteDensity : ℚ) (lp hp : String) (plow phigh : ParsedPitch),
      lp ≠ "" → hp ≠ "" → parsePitch lp = some plow → parsePitch hp = some phigh →
      ∀ m ∈ generateMeasures selectNote rng bars timeSig noteDensity (some lp) (some hp),
      ∀ ev ∈ m, ev.isRest = false →
        (plow.midi ≤ noteToMidi ev.key ∧ noteToMidi ev.key ≤ phigh.midi) ∨
        ((∀ o ∈ validOctavesFor plow.midi phigh.midi, ∀ l ∈ baseNotes,
            ¬(plow.midi ≤ noteToMidi ((selectNote l).note ++ "/" ++ toString o) ∧
              noteToMidi ((selectNote l).note ++ "/" ++ toString o) ≤ phigh.midi)) ∧
          ev.key = (selectNote "c").note ++ "/" ++
            toString ((validOctavesFor plow.midi phigh.midi).getD
              ((validOctavesFor plow.midi phigh.midi).length / 2) 4)) := by
  intro sn rng bars timeSig density lp hp plow phigh hlp hhp hplow hphigh m hm ev hev hrest
  have hlow : resolveMidiBound (some lp) 48 = plow.midi :=
    resolveMidiBound_parse lp plow 48 hlp hplow
  have hhigh : resolveMidiBound (some hp) 84 = phigh.midi :=
    resolveMidiBound_parse hp phigh 84 hhp hphigh
  unfold generateMeasures at hm
  rw [hlow, hhigh] at hm
  obtain ⟨j, rfl⟩ := genLoop_mem _ _ bars 0 m hm
  rcases generated_key_spec _ _ _ _ ev hev hrest with hin | ⟨hnone, hkey⟩
  · left
    exact (inMidiRange_iff _ _).1 hin
  · right
    constructor
    · exact fun o ho l hl => scanPitch_none _ hnone o ho l hl
    · exact hkey

/-- Witness for C2 on a concrete generation with range C4..G5: the
generated pitch f/5 lies within [60, 79]. -/
theorem c2_generated_pitches_in_range_witness :
    (60 : ℤ) ≤ noteToMidi "f/5" ∧ noteToMidi "f/5" ≤ 79 := by
  have hG : generateMeasures naturalSel halfStream 1 "4/4" 70 (some "C4") (some "G5") =
      [List.replicate 8 ⟨"f/5", none, Duration.e8, false⟩] := by
    with_unfolding_all rfl
  have happ := c2_generated_pitches_in_range naturalSel halfStream 1 "4/4" 70 "C4" "G5"
    ⟨60, 4, "c"⟩ ⟨79, 5, "g"⟩ (by decide) (by decide)
    (by with_unfolding_all rfl) (by with_unfolding_all rfl)
    (List.replicate 8 ⟨"f/5", none, Duration.e8, false⟩) (by rw [hG]; simp)
    ⟨"f/5", none, Duration.e8, false⟩ (by simp [List.mem_replicate]) rfl
  rcases happ with h | ⟨hnone, hdead⟩
  · exact h
  · exfalso
    have h5 : (5 : ℕ) ∈ validOctavesFor 60 79 := by with_unfolding_all decide
    have hf : "f" ∈ baseNotes := by decide
    have hno := hnone 5 h5 "f" hf
    apply hno
    constructor <;> with_unfolding_all decide

/-! ## Scores, persistence and import/export -/

/-- A JSON value, the parse result of a score snapshot file. -/
inductive JsonVal where
  | null
  | bool (b : Bool)
  | num (q : ℚ)
  | str (s : String)
  | arr (xs : List JsonVal)
  | obj (fields : List (String × JsonVal))

/-- `GeneratedScore` (src/src/App.tsx:26-37). -/
structure GeneratedScore where
  id : String
  key : String
  bars : ℚ
  tempo : ℚ
  timeSig : String
  measures : List (List NoteSpec)
  createdAt : ℚ
  noteDensity : ℚ
  highestPitch : Option String
  lowestPitch : Option String
  deriving Repr, DecidableEq

/-- Property access `data.<name>` on a parsed JSON object.  The exported
snapshots have distinct field names, so first match suffices. -/
def getField (fields : List (String × JsonVal)) (name : String) : Option JsonVal :=
  (fields.find? (fun f => f.1 == name)).map Prod.snd

/-- JavaScript truthiness of a property value (`none` is `undefined`). -/
def jsTruthy : Option JsonVal → Bool
  | none => false
  | some JsonVal.null => false
  | some (JsonVal.bool b) => b
  | some (JsonVal.num q) => decide (q ≠ 0)
  | some (JsonVal.str s) => decide (s ≠ "")
  | some (JsonVal.arr _) => true
  | some (JsonVal.obj _) => true

/-- JavaScript `Number(...)` of a property value, `none` standing for
NaN: `undefined` is NaN, `null` is 0, booleans are 0/1, digit strings
parse; arrays and objects are modelled as non-numeric (they cannot
appear in an exported snapshot's numeric fields). -/
def jsNumberOfJson : Option JsonVal → Option ℚ
  | none => none
  | some JsonVal.null => some 0
  | some (JsonVal.bool b) => some (if b then 1 else 0)
  | some (JsonVal.num q) => some q
  | some (JsonVal.str s) => (jsNumberOfDigits s.toList).map (fun z => (z : ℚ))
  | some (JsonVal.arr _) => none
  | some (JsonVal.obj _) => none

/-- The object fields of a JSON value, when it is an object (JS
`typeof raw === 'object'` with truthiness; arrays have no named fields,
so they fail the subsequent property checks just as here). -/
def objFields : JsonVal → Option (List (String × JsonVal))
  | JsonVal.obj fs => some fs
  | _ => none

/-- A required truthy string property: `some` exactly when the field is
a non-empty string (the checks of src/src/App.tsx:585-586). -/
def truthyStrField (fs : List (String × JsonVal)) (name : String) : Option String :=
  match getField fs name with
  | some (JsonVal.str s) => if s = "" then none else some s
  | _ => none

/-- A string property with a default for absent, null or non-string
values (the `?? dfl` accesses; a non-string truthy value is collapsed to
the default, a shape no exported snapshot produces). -/
def strFieldD (fs : List (String × JsonVal)) (name : String) (dfl : String) : String :=
  match getField fs name with
  | some (JsonVal.str s) => s
  | _ => dfl

/-- The `accidental ?? null` normalization, keeping only strings. -/
def accField (fs : List (String × JsonVal)) : Option String :=
  match getField fs "accidental" with
  | some (JsonVal.str s) => some s
  | _ => none

/-- The duration check of src/src/App.tsx:604-605: must be exactly one
of the strings "q", "8", "h". -/
def durationOfString (s : String) : Option Duration :=
  if s = "q" then some Duration.q
  else if s = "8" then some Duration.e8
  else if s = "h" then some Duration.h
  else none

/-- String form of a duration, as serialized. -/
def durationToString : Duration → String
  | .q => "q"
  | .e8 => "8"
  | .h => "h"

def durationField (fs : List (String × JsonVal)) : Option Duration :=
  match getField fs "duration" with
  | some (JsonVal.str s) => durationOfString s
  | _ => none

/-- The elements of an array property (src/src/App.tsx:594). -/
def arrElems : Option JsonVal → Option (List JsonVal)
  | some (JsonVal.arr xs) => some xs
  | _ => none

/-- The early-return mapping loop of the import validation: `none` as
soon as one element fails. -/
def optionMapList {α β : Type} (f : α → Option β) : List α → Option (List β)
  | [] => some []
  | a :: as => (f a).bind fun b => (optionMapList f as).map fun bs => b :: bs

/-- Validation and normalization of one note event
(src/src/App.tsx:601-614). -/
def normNote (note : JsonVal) : Option NoteSpec :=
  (objFields note).bind fun fs =>
  (durationField fs).bind fun dur =>
  if jsTruthy (getField fs "isRest") = false ∧ truthyStrField fs "key" = none then none
  else some
    { key := strFieldD fs "key" "b/4"
      accidental := accField fs
      duration := dur
      isRest := jsTruthy (getField fs "isRest") }

/-- Validation of one measure: must be an array of valid notes
(src/src/App.tsx:598-617). -/
def normMeasure (m : JsonVal) : Option (List NoteSpec) :=
  match m with
  | JsonVal.arr notes => optionMapList normNote notes
  | _ => none

/-- `normalizeImportedScore` (src/src/App.tsx:581-633).  `freshId` and
`now` stand for `crypto.randomUUID()` and `Date.now()`. -/
def normalizeImportedScore (freshId : String) (now : ℚ) (raw : JsonVal) :
    Option GeneratedScore :=
  (objFields raw).bind fun fs =>
  (truthyStrField fs "key").bind fun key =>
  (truthyStrField fs "timeSig").bind fun timeSig =>
  (jsNumberOfJson (getField fs "tempo")).bind fun tempo =>
  (arrElems (getField fs "measures")).bind fun ms =>
  (optionMapList normMeasure ms).map fun measures =>
    { id := (truthyStrField fs "id").getD freshId
      key := key
      bars := (jsNumberOfJson (getField fs "bars")).getD
        (if measures.length = 0 then 1 else (measures.length : ℚ))
      tempo := tempo
      timeSig := timeSig
      measures := measures
      createdAt := if jsTruthy (getField fs "createdAt") = true then
          (jsNumberOfJson (getField fs "createdAt")).getD now
        else now
      noteDensity := (jsNumberOfJson (getField fs "noteDensity")).getD 70
      highestPitch := some (strFieldD fs "highestPitch" "G5")
      lowestPitch := some (strFieldD fs "lowestPitch" "C4") }

/-- Serialization of one note event, as `JSON.stringify` renders it. -/
def noteSpecToJson (n : NoteSpec) : JsonVal :=
  JsonVal.obj [("key", JsonVal.str n.key),
    ("accidental", n.accidental.elim JsonVal.null JsonVal.str),
    ("duration", JsonVal.str (durationToString n.duration)),
    ("isRest", JsonVal.bool n.isRest)]

/-- Serialization of a score, as `JSON.stringify(item)` in
`handleDownload` (src/src/App.tsx:677) renders the score object built in
`handleGenerate` (src/src/App.tsx:496-507); absent optional pitch bounds
are omitted, as `JSON.stringify` drops `undefined` properties. -/
def scoreToJson (s : GeneratedScore) : JsonVal :=
  JsonVal.obj
    ([("id", JsonVal.str s.id), ("key", JsonVal.str s.key), ("bars", JsonVal.num s.bars),
      ("tempo", JsonVal.num s.tempo), ("timeSig", JsonVal.str s.timeSig),
      ("noteDensity", JsonVal.num s.noteDensity)]
      ++ s.lowestPitch.elim [] (fun p => [("lowestPitch", JsonVal.str p)])
      ++ s.highestPitch.elim [] (fun p => [("highestPitch", JsonVal.str p)])
      ++ [("measures", JsonVal.arr (s.measures.map (fun m => JsonVal.arr (m.map noteSpecToJson)))),
          ("createdAt", JsonVal.num s.createdAt)])

/-- `handleSave` (src/src/App.tsx:546-555) as a pure function of the
score and the library. -/
def handleSave (score : GeneratedScore) (collection : List GeneratedScore) :
    List GeneratedScore :=
  if collection.any (fun item => item.id == score.id) then collection
  else (score :: collection).take 30

/-- The pieces of application state read or written by the import
handler. -/
structure AppState where
  score : Option GeneratedScore
  previousScore : Option GeneratedScore
  keySig : String
  bars : ℚ
  tempo : ℚ
  timeSig : String
  noteDensity : ℚ
  lowestPitch : String
  highestPitch : String
  collection : List GeneratedScore
  deriving Repr, DecidableEq

/-- `handleFileSelected` (src/src/App.tsx:639-672) as a state
transition: `parsed` is the `JSON.parse` result (`none` when parsing
threw); an invalid snapshot leaves the state untouched, a valid one
replaces the active score, all editable parameters, and
dedupe-prepends into the library truncated to 30. -/
def handleFileSelected (freshId : String) (now : ℚ) (parsed : Option JsonVal)
    (st : AppState) : AppState :=
  (parsed.bind (normalizeImportedScore freshId now)).elim st (fun imported =>
    { score := some imported
      previousScore := st.score
      keySig := imported.key
      bars := imported.bars
      tempo := imported.tempo
      timeSig := imported.timeSig
      noteDensity := imported.noteDensity
      lowestPitch := imported.lowestPitch.getD "C4"
      highestPitch := imported.highestPitch.getD "G5"
      collection := (imported :: st.collection.filter
        (fun c => !(c.id == imported.id))).take 30 })

/-- The character class `[a-zA-Z0-9-]` of the filename sanitizer. -/
def isSafeChar (c : Char) : Bool :=
  ('a' ≤ c && c ≤ 'z') || ('A' ≤ c && c ≤ 'Z') || ('0' ≤ c && c ≤ '9') || c = '-'

theorem length_dropWhile_le {α : Type} (p : α → Bool) (l : List α) :
    (l.dropWhile p).length ≤ l.length := by
  induction l with
  | nil => simp
  | cons x xs ih =>
    rw [List.dropWhile_cons]
    split
    · exact le_trans ih (by simp)
    · simp

/-- `replace(/[^a-z0-9-]+/gi, '_')`: each maximal run of disallowed
characters becomes a single underscore. -/
def collapseRuns : List Char → List Char
  | [] => []
  | c :: rest =>
    if isSafeChar c then c :: collapseRuns rest
    else '_' :: collapseRuns (rest.dropWhile (fun x => !isSafeChar x))
termination_by cs => cs.length
decreasing_by
  · simp
  · simp only [List.length_cons]
    exact Nat.lt_succ_of_le (length_dropWhile_le _ _)

/-- The spec's reading of the sanitizer: each disallowed character
becomes one underscore. -/
def perCharSanitize (cs : List Char) : List Char :=
  cs.map (fun c => if isSafeChar c then c else '_')

/-- The export filename of `handleDownload` (src/src/App.tsx:674-676):
`score-<sanitized-key>-<id>.json`, with `untitled` replacing an empty
sanitized key. -/
def downloadFilename (item : GeneratedScore) : String :=
  "score-" ++
    (if String.mk (collapseRuns item.key.toList) = "" then "untitled"
     else String.mk (collapseRuns item.key.toList)) ++ "-" ++ item.id ++ ".json"

theorem normNote_roundtrip (n : NoteSpec) (h : n.isRest = false → n.key ≠ "") :
    normNote (noteSpecToJson n) = some n := by
  obtain ⟨k, acc, dur, rest⟩ := n
  cases rest
  · have hk : ¬(k = "") := h rfl
    cases acc <;> cases dur <;>
      simp [normNote, noteSpecToJson, objFields, durationField, getField, durationOfString,
        durationToString, truthyStrField, strFieldD, accField, jsTruthy, hk]
  · cases acc <;> cases dur <;>
      simp [normNote, noteSpecToJson, objFields, durationField, getField, durationOfString,
        durationToString, truthyStrField, strFieldD, accField, jsTruthy]

theorem optionMapList_roundtrip {α β : Type} (f : β → Option α) (g : α → β) (l : List α)
    (h : ∀ a ∈ l, f (g a) = some a) : optionMapList f (l.map g) = some l := by
  induction l with
  | nil => rfl
  | cons x xs ih =>
    simp only [List.map_cons, optionMapList]
    rw [h x (by simp), Option.some_bind, ih (fun a ha => h a (by simp [ha]))]
    rfl

theorem measures_roundtrip (measures : List (List NoteSpec))
    (h : ∀ m ∈ measures, ∀ n ∈ m, n.isRest = false → n.key ≠ "") :
    optionMapList normMeasure
      (measures.map (fun m => JsonVal.arr (m.map noteSpecToJson))) = some measures := by
  apply optionMapList_roundtrip
  intro m hm
  show normMeasure (JsonVal.arr (m.map noteSpecToJson)) = some m
  unfold normMeasure
  exact optionMapList_roundtrip _ _ _ (fun n hn => normNote_roundtrip n (h m hm n hn))

/-- Claim C5 (corrected): importing the exported JSON of a well-formed
score reproduces it exactly - same key, time signature, tempo, bars,
measures, density and pitch range, with id and createdAt preserved.
Well-formed means: id, key and timeSig non-empty, createdAt non-zero
(`data.createdAt &&` is a truthiness test, so a zero timestamp would be
regenerated), both pitch bounds present, and every non-rest event
carrying a non-empty pitch key. -/
theorem c5_export_import_roundtrip :
    ∀ (s : GeneratedScore) (freshId : String) (now : ℚ),
      s.id ≠ "" → s.key ≠ "" → s.timeSig ≠ "" → s.createdAt ≠ 0 →
      s.lowestPitch.isSome = true → s.highestPitch.isSome = true →
      (∀ m ∈ s.measures, ∀ n ∈ m, n.isRest = false → n.key ≠ "") →
      normalizeImportedScore freshId now (scoreToJson s) = some s := by
  rintro ⟨id, key, bars, tempo, timeSig, measures, createdAt, dens, hiP, loP⟩
    fresh now hid hkey hts hca hlo hhi hnotes
  obtain ⟨lp, rfl⟩ : ∃ p, loP = some p := by
    cases loP
    · simp at hlo
    · exact ⟨_, rfl⟩
  obtain ⟨hp', rfl⟩ : ∃ p, hiP = some p := by
    cases hiP
    · simp at hhi
    · exact ⟨_, rfl⟩
  have hms := measures_roundtrip measures hnotes
  simp [normalizeImportedScore, scoreToJson, objFields, truthyStrField, getField,
    jsNumberOfJson, arrElems, strFieldD, jsTruthy, hkey, hts, hid, hca, hms]

/-- A concrete well-formed score for the C5 witness. -/
def c5Sample : GeneratedScore :=
  ⟨"id1", "C", 4, 100, "4/4",
   [[⟨"c/4", none, Duration.q, false⟩, ⟨"b/4", some "#", Duration.e8, true⟩]],
   1700, 70, some "G5", some "C4"⟩

/-- Witness for C5 at a concrete score. -/
theorem c5_export_import_roundtrip_witness :
    normalizeImportedScore "fresh" 123 (scoreToJson c5Sample) = some c5Sample := by
  refine c5_export_import_roundtrip c5Sample "fresh" 123 (by decide) (by decide) (by decide)
    ?_ rfl rfl ?_
  · intro h
    exact absurd h (by with_unfolding_all decide)
  · intro m hm n hn
    simp only [c5Sample] at hm
    simp only [List.mem_singleton] at hm
    subst hm
    intro hrest
    rcases List.mem_cons.1 hn with rfl | hn'
    · decide
    · simp at hn'
      subst hn'
      simp at hrest

/-- The same score with a zero creation timestamp. -/
def c5SampleZero : GeneratedScore := { c5Sample with createdAt := 0 }

/-- Claim C5 (corrected), counterexample: a score whose `createdAt` is
present but 0 is re-imported with a regenerated timestamp (here 123),
because the code tests the field for truthiness, not presence. -/
theorem c5_counterexample :
    normalizeImportedScore "fresh" 123 (scoreToJson c5SampleZero) =
      some { c5SampleZero with createdAt := 123 } ∧
    c5SampleZero.createdAt = 0 ∧
    normalizeImportedScore "fresh" 123 (scoreToJson c5SampleZero) ≠ some c5SampleZero := by
  refine ⟨?_, ?_, ?_⟩
  · with_unfolding_all rfl
  · with_unfolding_all rfl
  · with_unfolding_all decide

/-- Claim C6 (confirmed): saving a score whose identifier is already in
the library leaves the library unchanged (so a second save of the same
score is a no-op), and saving a fresh identifier prepends the score and
truncates to the 30 most recent entries. -/
theorem c6_save_semantics :
    ∀ (s : GeneratedScore) (col : List GeneratedScore),
      handleSave s (handleSave s col) = handleSave s col ∧
      (col.any (fun item => item.id == s.id) = true → handleSave s col = col) ∧
      (col.any (fun item => item.id == s.id) = false →
        handleSave s col = (s :: col).take 30) := by
  intro s col
  refine ⟨?_, ?_, ?_⟩
  · by_cases h : col.any (fun item => item.id == s.id) = true
    · have h1 : handleSave s col = col := by unfold handleSave; rw [if_pos h]
      rw [h1, h1]
    · have h1 : handleSave s col = (s :: col).take 30 := by
        unfold handleSave; rw [if_neg h]
      rw [h1]
      have hmem : s ∈ (s :: col).take 30 := by
        rw [show (30 : ℕ) = 29 + 1 from rfl, List.take_succ_cons]
        exact List.mem_cons_self _ _
      have hany : ((s :: col).take 30).any (fun item => item.id == s.id) = true :=
        List.any_eq_true.2 ⟨s, hmem, by simp⟩
      unfold handleSave
      rw [if_pos hany]
  · intro h; unfold handleSave; rw [if_pos h]
  · intro h
    unfold handleSave
    rw [if_neg (by simp [h])]

/-- Witness for C6 starting from the empty library. -/
theorem c6_save_semantics_witness :
    handleSave c5Sample (handleSave c5Sample []) = handleSave c5Sample [] ∧
    handleSave c5Sample [] = ([c5Sample] : List GeneratedScore).take 30 :=
  ⟨(c6_save_semantics c5Sample []).1, (c6_save_semantics c5Sample []).2.2 rfl⟩

theorem optionMapList_none {α β : Type} (f : α → Option β) (l : List α) (a : α)
    (ha : a ∈ l) (hf : f a = none) : optionMapList f l = none := by
  induction l with
  | nil => simp at ha
  | cons x xs ih =>
    rcases List.mem_cons.1 ha with rfl | ha'
    · unfold optionMapList
      rw [hf, Option.none_bind]
    · unfold optionMapList
      cases hx : f x
      · rfl
      · rw [Option.some_bind, ih ha']
        rfl

/-- Claim C7 (confirmed): an imported snapshot that fails validation
changes no state at all (active score, editable parameters and saved
library are untouched), and each of the claim's failure conditions does
make validation fail: missing/empty/non-string key or timeSig, a
non-finite tempo, a measures value that is not an array of arrays, an
event with an invalid duration, and a non-rest event without a
non-empty pitch string. -/
theorem c7_invalid_import_changes_nothing :
    (∀ (freshId : String) (now : ℚ) (raw : JsonVal) (st : AppState),
      normalizeImportedScore freshId now raw = none →
      handleFileSelected freshId now (some raw) st = st) ∧
    (∀ (freshId : String) (now : ℚ) (st : AppState),
      handleFileSelected freshId now none st = st) ∧
    (∀ (freshId : String) (now : ℚ) (fs : List (String × JsonVal)),
      truthyStrField fs "key" = none →
      normalizeImportedScore freshId now (JsonVal.obj fs) = none) ∧
    (∀ (freshId : String) (now : ℚ) (fs : List (String × JsonVal)),
      truthyStrField fs "timeSig" = none →
      normalizeImportedScore freshId now (JsonVal.obj fs) = none) ∧
    (∀ (freshId : String) (now : ℚ) (fs : List (String × JsonVal)),
      jsNumberOfJson (getField fs "tempo") = none →
      normalizeImportedScore freshId now (JsonVal.obj fs) = none) ∧
    (∀ (freshId : String) (now : ℚ) (fs : List (String × JsonVal)),
      arrElems (getField fs "measures") = none →
      normalizeImportedScore freshId now (JsonVal.obj fs) = none) ∧
    (∀ (freshId : String) (now : ℚ) (fs : List (String × JsonVal))
      (ms : List JsonVal) (mj : JsonVal),
      getField fs "measures" = some (JsonVal.arr ms) → mj ∈ ms → normMeasure mj = none →
      normalizeImportedScore freshId now (JsonVal.obj fs) = none) ∧
    (∀ (notes : List JsonVal) (n : JsonVal), n ∈ notes → normNote n = none →
      normMeasure (JsonVal.arr notes) = none) ∧
    (∀ nfs : List (String × JsonVal), durationField nfs = none →
      normNote (JsonVal.obj nfs) = none) ∧
    (∀ nfs : List (String × JsonVal), jsTruthy (getField nfs "isRest") = false →
      truthyStrField nfs "key" = none → normNote (JsonVal.obj nfs) = none) := by
  refine ⟨?_, ?_, ?_, ?_, ?_, ?_, ?_, ?_, ?_, ?_⟩
  · intro fresh now raw st h
    unfold handleFileSelected
    rw [Option.some_bind, h]
    rfl
  · intro fresh now st
    rfl
  · intro fresh now fs h
    unfold normalizeImportedScore
    rw [show objFields (JsonVal.obj fs) = some fs from rfl, Option.some_bind, h,
      Option.none_bind]
  · intro fresh now fs h
    unfold normalizeImportedScore
    rw [show objFields (JsonVal.obj fs) = some fs from rfl, Option.some_bind]
    cases hk : truthyStrField fs "key"
    · rw [Option.none_bind]
    · rw [Option.some_bind, h, Option.none_bind]
  · intro fresh now fs h
    unfold normalizeImportedScore
    rw [show objFields (JsonVal.obj fs) = some fs from rfl, Option.some_bind]
    cases hk : truthyStrField fs "key"
    · rw [Option.none_bind]
    · rw [Option.some_bind]
      cases ht : truthyStrField fs "timeSig"
      · rw [Option.none_bind]
      · rw [Option.some_bind, h, Option.none_bind]
  · intro fresh now fs h
    unfold normalizeImportedScore
    rw [show objFields (JsonVal.obj fs) = some fs from rfl, Option.some_bind]
    cases hk : truthyStrField fs "key"
    · rw [Option.none_bind]
    · rw [Option.some_bind]
      cases ht : truthyStrField fs "timeSig"
      · rw [Option.none_bind]
      · rw [Option.some_bind]
        cases htm : jsNumberOfJson (getField fs "tempo")
        · rw [Option.none_bind]
        · rw [Option.some_bind, h, Option.none_bind]
  · intro fresh now fs ms mj hms hmem hnone
    unfold normalizeImportedScore
    rw [show objFields (JsonVal.obj fs) = some fs from rfl, Option.some_bind]
    cases hk : truthyStrField fs "key"
    · rw [Option.none_bind]
    · rw [Option.some_bind]
      cases ht : truthyStrField fs "timeSig"
      · rw [Option.none_bind]
      · rw [Option.some_bind]
        cases htm : jsNumberOfJson (getField fs "tempo")
        · rw [Option.none_bind]
        · rw [Option.some_bind]
          rw [show arrElems (getField fs "measures") = some ms from by rw [hms]; rfl]
          rw [Option.some_bind]
          rw [optionMapList_none normMeasure ms mj hmem hnone]
          rfl
  · intro notes n hmem hnone
    unfold normMeasure
    exact optionMapList_none normNote notes n hmem hnone
  · intro nfs h
    unfold normNote
    rw [show objFields (JsonVal.obj nfs) = some nfs from rfl, Option.some_bind, h,
      Option.none_bind]
  · intro nfs h1 h2
    unfold normNote
    rw [show objFields (JsonVal.obj nfs) = some nfs from rfl, Option.some_bind]
    cases hd : durationField nfs
    · rw [Option.none_bind]
    · rw [Option.some_bind, if_pos ⟨h1, h2⟩]

/-- A concrete application state for the C7 witness. -/
def sampleState : AppState :=
  ⟨none, none, "C", 4, 100, "4/4", 70, "C4", "G5", []⟩

/-- Witness for C7: importing a snapshot whose key field is a number
leaves the concrete state untouched. -/
theorem c7_invalid_import_changes_nothing_witness :
    handleFileSelected "fresh" 5 (some (JsonVal.obj [("key", JsonVal.num 1)]))
      sampleState = sampleState := by
  refine c7_invalid_import_changes_nothing.1 "fresh" 5 _ sampleState ?_
  rfl

theorem collapseRuns_eq_perChar (cs : List Char)
    (h : List.Chain' (fun a b => isSafeChar a = true ∨ isSafeChar b = true) cs) :
    collapseRuns cs = perCharSanitize cs := by
  induction cs with
  | nil => simp [collapseRuns, perCharSanitize]
  | cons c rest ih =>
    by_cases hc : isSafeChar c = true
    · simp only [collapseRuns, if_pos hc]
      rw [ih h.tail]
      simp [perCharSanitize, hc]
    · simp only [collapseRuns, if_neg hc]
      cases rest with
      | nil => simp [collapseRuns, perCharSanitize, hc]
      | cons r rs =>
        have hpair := List.chain'_cons.1 h
        have hr : isSafeChar r = true := by
          rcases hpair.1 with h1 | h1
          · exact absurd h1 hc
          · exact h1
        have hdrop : (r :: rs).dropWhile (fun x => !isSafeChar x) = r :: rs := by
          rw [List.dropWhile_cons]
          simp [hr]
        rw [hdrop, ih hpair.2]
        simp [perCharSanitize, hc]

theorem collapseRuns_ne_nil (cs : List Char) (h : cs ≠ []) : collapseRuns cs ≠ [] := by
  cases cs with
  | nil => exact absurd rfl h
  | cons c rest =>
    by_cases hc : isSafeChar c = true
    · simp only [collapseRuns, if_pos hc]
      simp
    · simp only [collapseRuns, if_neg hc]
      simp

/-- Claim C9 (corrected): the export filename is
`score-<sanitized-key>-<id>.json` where the sanitizer collapses each
maximal run of disallowed characters into a single underscore (with
`untitled` replacing an empty result); the claim's character-by-character
replacement agrees with it exactly when the key is non-empty and never
has two adjacent disallowed characters. -/
theorem c9_download_filename :
    ∀ item : GeneratedScore,
      (downloadFilename item = "score-" ++
        (if String.mk (collapseRuns item.key.toList) = "" then "untitled"
         else String.mk (collapseRuns item.key.toList)) ++ "-" ++ item.id ++ ".json") ∧
      (item.key ≠ "" →
        List.Chain' (fun a b => isSafeChar a = true ∨ isSafeChar b = true) item.key.toList →
        downloadFilename item =
          "score-" ++ String.mk (perCharSanitize item.key.toList) ++ "-" ++
            item.id ++ ".json") := by
  intro item
  constructor
  · rfl
  · intro hne hchain
    unfold downloadFilename
    rw [collapseRuns_eq_perChar _ hchain]
    have hcs : item.key.toList ≠ [] := fun h0 => hne (congrArg String.mk h0)
    have hne2 : ¬(String.mk (perCharSanitize item.key.toList) = "") := by
      intro h0
      have hdata : perCharSanitize item.key.toList = [] := by
        have := congrArg String.toList h0
        simpa using this
      unfold perCharSanitize at hdata
      exact hcs (List.map_eq_nil_iff.1 hdata)
    rw [if_neg hne2]

/-- A concrete score whose key has two adjacent disallowed characters,
for the C9 counterexample. -/
def c9Sample : GeneratedScore :=
  ⟨"x1", "A!!B", 4, 100, "4/4", [], 1700, 70, some "G5", some "C4"⟩

/-- Claim C9 (corrected), counterexample: for the key "A!!B" the code
produces one underscore for the whole run, so the filename is
`score-A_B-x1.json` and not the `score-A__B-x1.json` the per-character
claim would require. -/
theorem c9_counterexample :
    downloadFilename c9Sample = "score-A_B-x1.json" ∧
    String.mk (perCharSanitize ("A!!B" : String).toList) = "A__B" ∧
    ("score-A_B-x1.json" : String) ≠
      "score-" ++ String.mk (perCharSanitize ("A!!B" : String).toList) ++ "-" ++
        "x1" ++ ".json" := by
  refine ⟨?_, ?_, ?_⟩
  · with_unfolding_all rfl
  · with_unfolding_all rfl
  · with_unfolding_all decide

/-- A concrete score with a well-behaved key for the C9 witness. -/
def c9Witness : GeneratedScore :=
  ⟨"x1", "F#m", 4, 100, "4/4", [], 1700, 70, some "G5", some "C4"⟩

/-- Witness for C9: on the key "F#m" (no adjacent disallowed
characters) the per-character formula holds. -/
theorem c9_download_filename_witness :
    downloadFilename c9Witness =
      "score-" ++ String.mk (perCharSanitize ("F#m" : String).toList) ++ "-" ++
        "x1" ++ ".json" :=
  (c9_download_filename c9Witness).2 (by decide)
    (by
      refine List.chain'_cons.2 ⟨Or.inl (by decide), ?_⟩
      refine List.chain'_cons.2 ⟨Or.inr (by decide), ?_⟩
      exact List.chain'_singleton _)
